import Mathlib

/-!
Shallow embedding of the tinyOS preemptive priority scheduler
(`src/os/scheduler.c`) and verification of the specification claims.

Modelling conventions:

* Tasks are identified by their index in the fixed pool `task_pool[16]`
  (`Nat`); the TCB record `task_t` carries the fields of the C struct.
  The intrusive `next` pointer together with `ready_head[p]`/`ready_tail[p]`
  is rendered as one Lean list per priority (`ready_q p`), in head-to-tail
  order: appending at the tail models `ready_tail[p]->next = t; tail = t`,
  removing the first occurrence models the unlink loop of `ready_dequeue`,
  and walking the list head-to-tail models the `while (cur) cur = cur->next`
  scans.  Machine integers are `Nat`; the only bit-level arithmetic the
  scheduler performs is on the 32-bit `ready_bitmap`, modelled with `Nat`
  shifts/ors (all values stay below `2 ^ 32`, and `priority & 31` is
  `priority % 32`).
* `__builtin_ctz` and the `while (bits)` loop of `pick_next_task` are
  translated with an explicit fuel argument so that they are structurally
  recursive and kernel-computable.  The fuel (32 resp. 33) is exact for
  32-bit operands: `ctz` halves its argument at most 32 times, and the
  pick loop clears one set bit of a 32-bit word per iteration, so it runs
  at most 33 times before the `bits == 0` exit fires.  Lemmas below are
  proved under the `< 2 ^ 32` bound that every reachable bitmap satisfies.
* Hardware accesses (timer registers, VIC, `uart_puts`, the inline
  assembly of `task_switch`) have no effect on the scheduler record and
  are not modelled; `swi 0` is a synchronous trap into `swi_handler`, so
  raising it is modelled as calling `swi_handler`.
-/

namespace TinyOS

/-- Task states, in C declaration order (`memzero` therefore yields
`TASK_READY`, the enumerator with value 0). -/
inductive task_state_t where
  | TASK_READY
  | TASK_RUNNING
  | TASK_SLEEPING
  | TASK_BLOCKED
  | TASK_STOPPED
deriving DecidableEq

export task_state_t (TASK_READY TASK_RUNNING TASK_SLEEPING TASK_BLOCKED TASK_STOPPED)

/-- Task control block (`struct task` of scheduler.c).  The `next` link is
represented by the position of the task in the ready-queue lists. -/
structure task_t where
  stack : Nat
  stack_size : Nat
  sp : Nat
  regs : List Nat
  lr : Nat
  pc : Nat
  priority : Nat
  state : task_state_t
  wake_tick : Nat
deriving DecidableEq

/-- The all-zero TCB produced by `memzero` in `scheduler_init`. -/
def zero_task : task_t :=
  { stack := 0, stack_size := 0, sp := 0, regs := [0, 0, 0, 0, 0, 0, 0, 0],
    lr := 0, pc := 0, priority := 0, state := TASK_READY, wake_tick := 0 }

/-- Scheduler singleton (`scheduler_t` of scheduler.c).  `ready_q p` is the
FIFO for priority `p` (head first); `task_pool i` for `i ≥ task_count` is
the zeroed, unallocated slot. -/
structure scheduler_t where
  ready_q : Nat → List Nat
  ready_bitmap : Nat
  task_pool : Nat → task_t
  task_count : Nat
  current : Option Nat
  tick : Nat

/-- `scheduler_init`: `memzero(&sched, sizeof(sched))`.  The hardware side
(`vic_init`, `timer_init`, `enable_interrupts`) touches no scheduler state. -/
def scheduler_init : scheduler_t :=
  { ready_q := fun _ => [], ready_bitmap := 0, task_pool := fun _ => zero_task,
    task_count := 0, current := none, tick := 0 }

/-- `ready_enqueue`: append `t` at the tail of its priority FIFO; when the
FIFO was empty also set the bitmap bit.  (`p = t->priority & 31`.) -/
def ready_enqueue (s : scheduler_t) (t : Nat) : scheduler_t :=
  let p := (s.task_pool t).priority % 32
  if s.ready_q p = [] then
    { s with ready_q := Function.update s.ready_q p [t],
             ready_bitmap := s.ready_bitmap ||| (1 <<< p) }
  else
    { s with ready_q := Function.update s.ready_q p (s.ready_q p ++ [t]) }

/-- `ready_dequeue`: walk the FIFO of `t`'s priority and unlink the node
equal to `t`; no effect when absent.  The bitmap is (faithfully) NOT
touched, even when the FIFO becomes empty. -/
def ready_dequeue (s : scheduler_t) (t : Nat) : scheduler_t :=
  let p := (s.task_pool t).priority % 32
  { s with ready_q := Function.update s.ready_q p ((s.ready_q p).erase t) }

/-- The inner `while (cur)` loop of `pick_next_task`: first task in
head-to-tail order whose state is `TASK_READY`. -/
def scan_queue (s : scheduler_t) : List Nat → Option Nat
  | [] => none
  | t :: rest => if (s.task_pool t).state = TASK_READY then some t else scan_queue s rest

/-- `__builtin_ctz`, fuelled: `ctz_go k n` halves `n` at most `k` times,
so `ctz_go 32 n` is the count of trailing zeros for any nonzero `n < 2^32`. -/
def ctz_go : Nat → Nat → Nat
  | 0, _ => 0
  | k + 1, n => if n % 2 = 1 then 0 else ctz_go k (n / 2) + 1

/-- `__builtin_ctz` for 32-bit operands (callers guarantee `n ≠ 0`). -/
def ctz (n : Nat) : Nat := ctz_go 32 n

/-- The `while (bits)` loop of `pick_next_task`: take the least-significant
set bit `p` of `bits`, scan the priority-`p` FIFO, clear bit `p` and
continue.  `bits - (1 <<< p)` is `bits &= ~(1u << p)` for the lowest set
bit.  Fuel 33 is never exhausted for `bits < 2^32` (proved below). -/
def pick_loop (s : scheduler_t) : Nat → Nat → Option Nat
  | 0, _ => none
  | fuel + 1, bits =>
    if bits = 0 then none
    else
      match scan_queue s (s.ready_q (ctz bits)) with
      | some t => some t
      | none => pick_loop s fuel (bits - (1 <<< ctz bits))

/-- `pick_next_task`: scan priorities in ctz order of `ready_bitmap` and
return the first `TASK_READY` task found; does NOT modify any queue. -/
def pick_next_task (s : scheduler_t) : Option Nat :=
  if s.ready_bitmap = 0 then none
  else pick_loop s 33 s.ready_bitmap

/-- `task_create`: silent no-op when the pool is full, otherwise fill the
next pool slot and enqueue it on the ready queue. -/
def task_create (s : scheduler_t) (func stack size priority : Nat) : scheduler_t :=
  if s.task_count ≥ 16 then s
  else
    let t : task_t :=
      { stack := stack, stack_size := size,
        sp := if size ≥ 32 then stack + (size - 16) else stack + (size - 1),
        regs := [0, 0, 0, 0, 0, 0, 0, 0], lr := 0, pc := func,
        priority := priority % 32, state := TASK_READY, wake_tick := 0 }
    let s1 := { s with task_pool := Function.update s.task_pool s.task_count t,
                       task_count := s.task_count + 1 }
    ready_enqueue s1 s.task_count

/-- `swi_handler`: dequeue the current task, pick the next ready task,
re-enqueue the (demoted) current task if it is still running, switch.
`task_switch` itself only moves CPU registers and is not modelled. -/
def swi_handler (s : scheduler_t) : scheduler_t :=
  let s1 := match s.current with
            | some curr => ready_dequeue s curr
            | none => s
  match pick_next_task s1 with
  | none => s1
  | some next =>
    if s.current = some next then s1
    else
      let s2 := match s.current with
                | some curr =>
                  if (s1.task_pool curr).state = TASK_RUNNING then
                    let sdem := { s1 with task_pool := Function.update s1.task_pool curr ({ s1.task_pool curr with state := TASK_READY }) }
                    ready_enqueue sdem curr
                  else s1
                | none => s1
      { s2 with current := some next, task_pool := Function.update s2.task_pool next ({ s2.task_pool next with state := TASK_RUNNING }) }

/-- The two field writes of `sleep` before it raises `swi 0`. -/
def sleep_enter (s : scheduler_t) (c ms : Nat) : scheduler_t :=
  { s with task_pool := Function.update s.task_pool c ({ s.task_pool c with wake_tick := ms, state := TASK_SLEEPING }) }

/-- `sleep(ms)`: no-op without a current task; otherwise set
`wake_tick`/`state` on the current task and raise `swi 0`, which traps
synchronously into `swi_handler`. -/
def sleep (s : scheduler_t) (ms : Nat) : scheduler_t :=
  match s.current with
  | none => s
  | some c => swi_handler (sleep_enter s c ms)

/-- One iteration of the sleeper-decrement loop of `timer0_irq_handler`. -/
def wake_step (s : scheduler_t) (i : Nat) : scheduler_t :=
  let t := s.task_pool i
  if t.state = TASK_SLEEPING ∧ t.wake_tick > 0 then
    let t1 := { t with wake_tick := t.wake_tick - 1 }
    let t2 := if t1.wake_tick = 0 then { t1 with state := TASK_READY } else t1
    { s with task_pool := Function.update s.task_pool i t2 }
  else s

/-- The `for (i = 0; i < sched.task_count; ++i)` sleeper walk. -/
def timer_wake_phase (s : scheduler_t) : scheduler_t :=
  (List.range s.task_count).foldl wake_step s

/-- `timer0_irq_handler`: acknowledge the timer (hardware only), decrement
all sleepers, raise `swi 0` (synchronous trap into `swi_handler`). -/
def timer0_irq_handler (s : scheduler_t) : scheduler_t :=
  swi_handler (timer_wake_phase s)

/-- `scheduler_start`: pick the first task; with no ready task the C code
spins forever (`while (1);`) and no later state exists, modelled by
returning the state unchanged.  Otherwise mark the pick running and jump
into it. -/
def scheduler_start (s : scheduler_t) : scheduler_t :=
  match pick_next_task s with
  | none => s
  | some first =>
    { s with current := some first, task_pool := Function.update s.task_pool first ({ s.task_pool first with state := TASK_RUNNING }) }

/-- The state in which `swi_handler` invokes `pick_next_task`: after the
current task has been dequeued (but before it is re-enqueued). -/
def swi_choice_state (s : scheduler_t) : scheduler_t :=
  match s.current with
  | some curr => ready_dequeue s curr
  | none => s

/-- The state in which the tick engine invokes `pick_next_task`: after the
sleeper walk and after the current task has been dequeued. -/
def tick_choice_state (s : scheduler_t) : scheduler_t :=
  swi_choice_state (timer_wake_phase s)

/-- States reachable by the public scheduler API: `scheduler_init`,
`task_create`, `sleep`, the timer tick (IRQ → `swi_handler`), and
`scheduler_start`. -/
inductive Reachable : scheduler_t → Prop where
  | init : Reachable scheduler_init
  | create (s : scheduler_t) (func stack size priority : Nat) :
      Reachable s → Reachable (task_create s func stack size priority)
  | sleep_r (s : scheduler_t) (ms : Nat) : Reachable s → Reachable (sleep s ms)
  | tick (s : scheduler_t) : Reachable s → Reachable (timer0_irq_handler s)
  | start (s : scheduler_t) : Reachable s → Reachable (scheduler_start s)

/-- `k` successive `task_create` calls at priority `p` (dummy entry/stack
arguments; they do not influence scheduling). -/
def createN : Nat → Nat → scheduler_t
  | 0, _ => scheduler_init
  | k + 1, p => task_create (createN k p) 0 0 0 p

/-- The task running during the `j`-th time slice after `scheduler_start`,
with `N` tasks created at priority `p`. -/
def dispatched (N p j : Nat) : Option Nat :=
  (timer0_irq_handler^[j] (scheduler_start (createN N p))).current

/-- Rotation of `[0, …, N-1]` by `j`: the ready-FIFO contents (priority `p`)
after `j` ticks of round-robin over `N` equal-priority tasks. -/
def rot (N j : Nat) : List Nat := (List.range N).map (fun i => (j + i) % N)

/-- Structural well-formedness of the scheduler state, maintained by every
reachable state: pool bounds, queue membership bounds, queue members filed
under their own priority, duplicate-freedom, the forward bitmap invariant
(`ready_head[p] ≠ null → bit p set` — the converse fails, see C3), and
32-bit-ness of the bitmap. -/
structure WF (s : scheduler_t) : Prop where
  count_le : s.task_count ≤ 16
  bitmap_lt : s.ready_bitmap < 2 ^ 32
  mem_lt : ∀ p t, t ∈ s.ready_q p → t < s.task_count
  mem_prio : ∀ p t, t ∈ s.ready_q p → (s.task_pool t).priority % 32 = p
  nodup : ∀ p, (s.ready_q p).Nodup
  bitmap_fwd : ∀ p, s.ready_q p ≠ [] → s.ready_bitmap.testBit p = true
  current_lt : ∀ c, s.current = some c → c < s.task_count

/-- State reached after `k` `task_create` calls at priority `p < 32`:
`k` READY tasks filed in creation order on the priority-`p` FIFO. -/
structure CreateInv (k p : Nat) (s : scheduler_t) : Prop where
  count : s.task_count = k
  bmp : s.ready_bitmap = if k = 0 then 0 else 1 <<< p
  cur : s.current = none
  qp : s.ready_q p = List.range k
  qo : ∀ q, q ≠ p → s.ready_q q = []
  pool_pr : ∀ i, i < k → (s.task_pool i).priority = p
  pool_st : ∀ i, i < k → (s.task_pool i).state = TASK_READY

/-- Round-robin invariant for `N ≥ 2` equal-priority tasks: after `j` ticks
the priority-`p` FIFO is the rotation of `[0, …, N-1]` by `j`, the task at
its head (`j % N`) is the running current task, everyone else is READY. -/
structure RotInv (N p j : Nat) (s : scheduler_t) : Prop where
  count : s.task_count = N
  bmp : s.ready_bitmap = 1 <<< p
  cur : s.current = some (j % N)
  qp : s.ready_q p = rot N j
  qo : ∀ q, q ≠ p → s.ready_q q = []
  pool_pr : ∀ i, i < N → (s.task_pool i).priority = p
  pool_st : ∀ i, i < N →
    (s.task_pool i).state = (if i = j % N then TASK_RUNNING else TASK_READY)

/-- Degenerate round-robin invariant for a single task after at least one
tick: the FIFO is empty (the solitary current task was dequeued and
`pick_next_task` found nothing, so it was never re-enqueued) and the task
keeps running. -/
structure Rot1Inv (p : Nat) (s : scheduler_t) : Prop where
  count : s.task_count = 1
  bmp : s.ready_bitmap = 1 <<< p
  cur : s.current = some 0
  qp : s.ready_q p = []
  qo : ∀ q, q ≠ p → s.ready_q q = []
  pool_pr : (s.task_pool 0).priority = p
  pool_st : (s.task_pool 0).state = TASK_RUNNING

/-- Two tasks created at priority 0 (the S1 scenario of the spec). -/
def exCreate2 : scheduler_t := createN 2 0

/-- S1 scenario just after `scheduler_start`: T1 (= pool index 0) current. -/
def exStart2 : scheduler_t := scheduler_start exCreate2

/-- T1 at priority 0, then T2 at priority 5 (the S2 scenario of the spec). -/
def exPrio : scheduler_t := task_create (task_create scheduler_init 0 0 0 0) 0 0 0 5

/-- S2 scenario after `scheduler_start` (T1 current) and one timer tick. -/
def exInv : scheduler_t := timer0_irq_handler (scheduler_start exPrio)

/-- One priority-0 task started and put to sleep: its FIFO is empty but
`ready_dequeue` left bitmap bit 0 set. -/
def exStale : scheduler_t := sleep (scheduler_start (createN 1 0)) 5

/-- S1 scenario where T1 calls `sleep(1)` and one timer tick then elapses:
T1's `wake_tick` reached 0 and its state is READY, but the tick engine
never re-enqueued it. -/
def exLost : scheduler_t := timer0_irq_handler (sleep exStart2 1)

/-- A full pool: sixteen tasks created at priority 0. -/
def full16 : scheduler_t := createN 16 0

/-! ### Frame lemmas for the elementary operations -/

theorem ready_enqueue_task_pool (s : scheduler_t) (t : Nat) :
    (ready_enqueue s t).task_pool = s.task_pool := by
  simp only [ready_enqueue]; split <;> rfl

theorem ready_enqueue_task_count (s : scheduler_t) (t : Nat) :
    (ready_enqueue s t).task_count = s.task_count := by
  simp only [ready_enqueue]; split <;> rfl

theorem ready_enqueue_current (s : scheduler_t) (t : Nat) :
    (ready_enqueue s t).current = s.current := by
  simp only [ready_enqueue]; split <;> rfl

theorem ready_enqueue_tick (s : scheduler_t) (t : Nat) :
    (ready_enqueue s t).tick = s.tick := by
  simp only [ready_enqueue]; split <;> rfl

theorem ready_dequeue_task_pool (s : scheduler_t) (t : Nat) :
    (ready_dequeue s t).task_pool = s.task_pool := rfl

theorem ready_dequeue_task_count (s : scheduler_t) (t : Nat) :
    (ready_dequeue s t).task_count = s.task_count := rfl

theorem ready_dequeue_current (s : scheduler_t) (t : Nat) :
    (ready_dequeue s t).current = s.current := rfl

theorem ready_dequeue_bitmap (s : scheduler_t) (t : Nat) :
    (ready_dequeue s t).ready_bitmap = s.ready_bitmap := rfl

theorem ready_dequeue_tick (s : scheduler_t) (t : Nat) :
    (ready_dequeue s t).tick = s.tick := rfl

theorem wake_step_ready_q (s : scheduler_t) (i : Nat) :
    (wake_step s i).ready_q = s.ready_q := by
  simp only [wake_step]; split <;> rfl

theorem wake_step_bitmap (s : scheduler_t) (i : Nat) :
    (wake_step s i).ready_bitmap = s.ready_bitmap := by
  simp only [wake_step]; split <;> rfl

theorem wake_step_task_count (s : scheduler_t) (i : Nat) :
    (wake_step s i).task_count = s.task_count := by
  simp only [wake_step]; split <;> rfl

theorem wake_step_current (s : scheduler_t) (i : Nat) :
    (wake_step s i).current = s.current := by
  simp only [wake_step]; split <;> rfl

theorem wake_step_tick (s : scheduler_t) (i : Nat) :
    (wake_step s i).tick = s.tick := by
  simp only [wake_step]; split <;> rfl

theorem wake_step_priority (s : scheduler_t) (i t : Nat) :
    ((wake_step s i).task_pool t).priority = (s.task_pool t).priority := by
  simp only [wake_step]; split
  · by_cases h : t = i
    · subst h; split <;> simp [Function.update_same]
    · simp [Function.update_noteq h]
  · rfl

theorem foldl_wake_ready_q (l : List Nat) (s : scheduler_t) :
    (l.foldl wake_step s).ready_q = s.ready_q := by
  induction l generalizing s with
  | nil => rfl
  | cons a l ih => simpa [List.foldl_cons, wake_step_ready_q] using ih (wake_step s a)

theorem foldl_wake_bitmap (l : List Nat) (s : scheduler_t) :
    (l.foldl wake_step s).ready_bitmap = s.ready_bitmap := by
  induction l generalizing s with
  | nil => rfl
  | cons a l ih => simpa [List.foldl_cons, wake_step_bitmap] using ih (wake_step s a)

theorem foldl_wake_task_count (l : List Nat) (s : scheduler_t) :
    (l.foldl wake_step s).task_count = s.task_count := by
  induction l generalizing s with
  | nil => rfl
  | cons a l ih => simpa [List.foldl_cons, wake_step_task_count] using ih (wake_step s a)

theorem foldl_wake_current (l : List Nat) (s : scheduler_t) :
    (l.foldl wake_step s).current = s.current := by
  induction l generalizing s with
  | nil => rfl
  | cons a l ih => simpa [List.foldl_cons, wake_step_current] using ih (wake_step s a)

theorem foldl_wake_tick (l : List Nat) (s : scheduler_t) :
    (l.foldl wake_step s).tick = s.tick := by
  induction l generalizing s with
  | nil => rfl
  | cons a l ih => simpa [List.foldl_cons, wake_step_tick] using ih (wake_step s a)

theorem foldl_wake_priority (l : List Nat) (s : scheduler_t) (t : Nat) :
    ((l.foldl wake_step s).task_pool t).priority = (s.task_pool t).priority := by
  induction l generalizing s with
  | nil => rfl
  | cons a l ih => simpa [List.foldl_cons, wake_step_priority] using ih (wake_step s a)

theorem timer_wake_phase_current (s : scheduler_t) :
    (timer_wake_phase s).current = s.current := foldl_wake_current _ s

theorem timer_wake_phase_tick (s : scheduler_t) :
    (timer_wake_phase s).tick = s.tick := foldl_wake_tick _ s

theorem swi_handler_tick (s : scheduler_t) : (swi_handler s).tick = s.tick := by
  unfold swi_handler
  rcases hc : s.current with _ | c
  · simp only [hc]
    rcases hp : pick_next_task s with _ | nx
    · simp only [hp]
    · simp only [hp]
      simp
  · simp only [hc]
    rcases hp : pick_next_task (ready_dequeue s c) with _ | nx
    · simp only [hp]
      rfl
    · simp only [hp]
      by_cases he : some c = some nx
      · simp only [if_pos he]
        rfl
      · simp only [if_neg he]
        split <;> simp [ready_enqueue_tick, ready_dequeue_tick]

/-! ### C9, C10, C5, C1 -/

/-- C9: the claim says every tick-engine invocation increments `sched.tick`
by one as its first step.  The code never writes `sched.tick` anywhere: the
tick engine leaves it unchanged, so it stays at its `scheduler_init` value 0
forever.  (Code bug: `scheduler.h` documents the tick handler as advancing
the system tick and the spec lists the increment as step 1.) -/
theorem c9_tick_counter_never_incremented (s : scheduler_t) :
    (timer0_irq_handler s).tick = s.tick ∧ scheduler_init.tick = 0 := by
  refine ⟨?_, rfl⟩
  unfold timer0_irq_handler
  rw [swi_handler_tick, timer_wake_phase_tick]

/-- C10: `sleep` called with no current task (`sched.current == NULL`)
returns immediately without modifying any scheduler state, for every
`ms` value. -/
theorem c10_sleep_without_current_is_noop (s : scheduler_t) (ms : Nat)
    (h : s.current = none) : sleep s ms = s := by
  unfold sleep; rw [h]

/-- Witness for C10 at a concrete state. -/
theorem c10_sleep_without_current_is_noop_witness :
    scheduler_init.current = none ∧ sleep scheduler_init 7 = scheduler_init :=
  ⟨rfl, c10_sleep_without_current_is_noop scheduler_init 7 rfl⟩

/-- C5: `task_create` on a full pool (`task_count ≥ MAX_TASKS = 16`) leaves
the entire scheduler state unchanged — but it returns `void` with no error
indication whatsoever, so the required distinguishable pool-exhausted
failure does not exist (code bug acknowledged by the spec, §7). -/
theorem c5_task_create_full_pool_silent_noop (s : scheduler_t)
    (func stack size priority : Nat) (h : s.task_count ≥ 16) :
    task_create s func stack size priority = s := by
  unfold task_create; rw [if_pos h]

/-- Witness for C5: the 17th `task_create` after sixteen successful ones. -/
theorem c5_task_create_full_pool_silent_noop_witness :
    full16.task_count ≥ 16 ∧ task_create full16 1 2 3 4 = full16 :=
  ⟨by decide, c5_task_create_full_pool_silent_noop full16 1 2 3 4 (by decide)⟩

/-- C1: code bug.  T1 and T2 run at priority 0; T1 calls `sleep(1)`.  On the
next tick its `wake_tick` is decremented 1 → 0 and its state is set to
`TASK_READY` — but `timer0_irq_handler` never hands it back to the ready
queue, so T1 sits on no FIFO, `pick_next_task` cannot find it, and it is
never dispatched again (here: three further ticks leave T2 current). -/
theorem c1_woken_sleeper_never_reenqueued :
    ((sleep exStart2 1).task_pool 0).state = TASK_SLEEPING ∧
    ((sleep exStart2 1).task_pool 0).wake_tick = 1 ∧
    (exLost.task_pool 0).state = TASK_READY ∧
    (exLost.task_pool 0).wake_tick = 0 ∧
    (∀ p < 32, 0 ∉ exLost.ready_q p) ∧
    pick_next_task exLost = none ∧
    exLost.current = some 1 ∧
    (timer0_irq_handler^[3] exLost).current = some 1 ∧
    ((timer0_irq_handler^[3] exLost).task_pool 0).state = TASK_READY := by
  decide

/-! ### Concrete counterexamples (corrected / code-bug claims) -/

/-- C2 counterexample: in the reachable state right after `scheduler_start`
with one priority-0 task, the current task is `TASK_RUNNING` yet still sits
on its ready FIFO (`pick_next_task` never dequeues), contradicting the
claimed `Running ↔ equals current and on no list` agreement and the claim
that after `scheduler_start` the current task is on no ready FIFO. -/
theorem c2_running_current_still_on_ready_fifo :
    Reachable (scheduler_start (createN 1 0)) ∧
    (scheduler_start (createN 1 0)).current = some 0 ∧
    ((scheduler_start (createN 1 0)).task_pool 0).state = TASK_RUNNING ∧
    0 ∈ (scheduler_start (createN 1 0)).ready_q 0 :=
  ⟨Reachable.start _ (Reachable.create _ 0 0 0 0 Reachable.init),
   by decide, by decide, by decide⟩

/-- C3 counterexample: after the solitary started task calls `sleep(5)`,
`swi_handler` dequeues it and its priority-0 FIFO becomes empty, but
`ready_dequeue` never clears bitmap bits, so bit 0 stays set while
`ready_head[0]` is null — the claimed iff fails in a reachable state. -/
theorem c3_stale_bitmap_bit_after_emptying_dequeue :
    Reachable exStale ∧ exStale.ready_q 0 = [] ∧
    exStale.ready_bitmap.testBit 0 = true :=
  ⟨Reachable.sleep_r _ 5 (Reachable.start _ (Reachable.create _ 0 0 0 0 Reachable.init)),
   by decide, by decide⟩

/-- C4 counterexample: (i) `pick_next_task` returns task 0 but performs no
dequeue — the function modifies no state at all, and the returned task is
still on its priority FIFO; (ii) `pick_next_task` returns null even though
a `TASK_READY` task exists (the lost woken sleeper of `exLost`), so
"returns null iff no ready task exists" also fails as stated. -/
theorem c4_pick_next_task_does_not_dequeue :
    (Reachable exCreate2 ∧ pick_next_task exCreate2 = some 0 ∧
      0 ∈ exCreate2.ready_q 0) ∧
    (Reachable exLost ∧ pick_next_task exLost = none ∧
      (exLost.task_pool 0).state = TASK_READY) :=
  ⟨⟨Reachable.create _ 0 0 0 0 (Reachable.create _ 0 0 0 0 Reachable.init),
    by decide, by decide⟩,
   ⟨Reachable.tick _ (Reachable.sleep_r _ 1 (Reachable.start _
      (Reachable.create _ 0 0 0 0 (Reachable.create _ 0 0 0 0 Reachable.init)))),
    by decide, by decide⟩⟩

/-- C6: code bug.  T1 has priority 0, T2 priority 5; T1 is started.  On the
first tick `swi_handler` dequeues T1, picks T2 (the only queued ready task),
and only afterwards demotes T1 to `TASK_READY` and re-enqueues it: after the
rotation step the engine has selected the strictly lower-priority T2 as the
new current task while the higher-priority T1 is Ready on its FIFO —
priority strictness is violated (the spec scenario S2 expects T1 to run on
every tick). -/
theorem c6_tick_engine_selects_lower_priority_task :
    Reachable exInv ∧
    (scheduler_start exPrio).current = some 0 ∧
    exInv.current = some 1 ∧
    (exInv.task_pool 1).priority = 5 ∧
    (exInv.task_pool 0).state = TASK_READY ∧
    (exInv.task_pool 0).priority = 0 ∧
    0 ∈ exInv.ready_q 0 :=
  ⟨Reachable.tick _ (Reachable.start _
     (Reachable.create _ 0 0 0 5 (Reachable.create _ 0 0 0 0 Reachable.init))),
   by decide, by decide, by decide, by decide, by decide, by decide⟩

/-- C8 counterexample: `sleep` raises `swi 0` immediately (`scheduler.c`
line 170), so in a reachable two-task state a successor is picked and the
ready queues change before `sleep` returns: current goes from T1 to T2 and
T1 is removed from the priority-0 FIFO, contradicting the claim that no
supervisor call is raised and current/queues are unchanged. -/
theorem c8_sleep_reschedules_immediately :
    Reachable exStart2 ∧ exStart2.current = some 0 ∧
    exStart2.ready_q 0 = [0, 1] ∧
    (sleep exStart2 5).current = some 1 ∧
    ((sleep exStart2 5).task_pool 1).state = TASK_RUNNING ∧
    (sleep exStart2 5).ready_q 0 = [1] :=
  ⟨Reachable.start _ (Reachable.create _ 0 0 0 0 (Reachable.create _ 0 0 0 0 Reachable.init)),
   by decide, by decide, by decide, by decide, by decide⟩

/-! ### Count-trailing-zeros lemmas -/

theorem ctz_go_testBit : ∀ (k n : Nat), n ≠ 0 → n < 2 ^ k → n.testBit (ctz_go k n) = true := by
  intro k
  induction k with
  | zero => intro n h0 hlt; omega
  | succ k ih =>
    intro n h0 hlt
    unfold ctz_go
    by_cases h : n % 2 = 1
    · rw [if_pos h, Nat.testBit_zero]
      simp [h]
    · rw [if_neg h, Nat.testBit_succ]
      refine ih (n / 2) (by omega) ?_
      have : 2 ^ (k + 1) = 2 * 2 ^ k := by ring
      omega

theorem ctz_go_min : ∀ (k n i : Nat), n < 2 ^ k → n.testBit i = true → ctz_go k n ≤ i := by
  intro k
  induction k with
  | zero =>
    intro n i hlt hbit
    have : n = 0 := by omega
    subst this
    simp [Nat.zero_testBit] at hbit
  | succ k ih =>
    intro n i hlt hbit
    unfold ctz_go
    by_cases h : n % 2 = 1
    · rw [if_pos h]; omega
    · rw [if_neg h]
      cases i with
      | zero =>
        rw [Nat.testBit_zero] at hbit
        simp at hbit
        omega
      | succ i =>
        rw [Nat.testBit_succ] at hbit
        have h2 : 2 ^ (k + 1) = 2 * 2 ^ k := by ring
        have := ih (n / 2) i (by omega) hbit
        omega

theorem ctz_go_clear : ∀ (k n q : Nat), n ≠ 0 → n < 2 ^ k →
    ((n - 2 ^ ctz_go k n).testBit q = true ↔ (n.testBit q = true ∧ q ≠ ctz_go k n)) := by
  intro k
  induction k with
  | zero => intro n q h0 hlt; omega
  | succ k ih =>
    intro n q h0 hlt
    unfold ctz_go
    by_cases h : n % 2 = 1
    · rw [if_pos h]
      cases q with
      | zero =>
        simp only [pow_zero, Nat.testBit_zero, ne_eq, not_true_eq_false, and_false, iff_false]
        simp
        omega
      | succ q =>
        have hd : (n - 1) / 2 = n / 2 := by omega
        simp only [pow_zero, Nat.testBit_succ, hd, ne_eq, Nat.succ_ne_zero, not_false_eq_true,
          and_true]
    · rw [if_neg h]
      have h2 : 2 ^ (k + 1) = 2 * 2 ^ k := by ring
      have hsub : n - 2 ^ (ctz_go k (n / 2) + 1) = 2 * (n / 2 - 2 ^ ctz_go k (n / 2)) := by
        have hp : 2 ^ (ctz_go k (n / 2) + 1) = 2 * 2 ^ ctz_go k (n / 2) := by ring
        omega
      rw [hsub]
      cases q with
      | zero =>
        simp only [Nat.testBit_zero, decide_eq_true_eq, ne_eq]
        constructor
        · intro hx; exact absurd hx (by omega)
        · rintro ⟨hx, -⟩; exact absurd hx h
      | succ q =>
        rw [Nat.testBit_succ, Nat.testBit_succ]
        have hdiv : 2 * (n / 2 - 2 ^ ctz_go k (n / 2)) / 2 = n / 2 - 2 ^ ctz_go k (n / 2) := by
          omega
        rw [hdiv]
        rw [ih (n / 2) q (by omega) (by omega)]
        simp only [ne_eq, Nat.succ.injEq]

theorem ctz_testBit (n : Nat) (h0 : n ≠ 0) (h32 : n < 2 ^ 32) :
    n.testBit (ctz n) = true := ctz_go_testBit 32 n h0 h32

theorem ctz_min (n i : Nat) (h32 : n < 2 ^ 32) (hbit : n.testBit i = true) :
    ctz n ≤ i := ctz_go_min 32 n i h32 hbit

theorem ctz_lt_32 (n : Nat) (h0 : n ≠ 0) (h32 : n < 2 ^ 32) : ctz n < 32 := by
  by_contra hge
  have hbit := ctz_testBit n h0 h32
  have hge2 : n ≥ 2 ^ ctz n := Nat.testBit_implies_ge hbit
  have : (2 : Nat) ^ 32 ≤ 2 ^ ctz n := Nat.pow_le_pow_right (by omega) (by omega)
  omega

theorem ctz_clear (n q : Nat) (h0 : n ≠ 0) (h32 : n < 2 ^ 32) :
    ((n - 1 <<< ctz n).testBit q = true ↔ (n.testBit q = true ∧ q ≠ ctz n)) := by
  rw [Nat.one_shiftLeft]
  exact ctz_go_clear 32 n q h0 h32

theorem ctz_increase (n : Nat) (h0 : n ≠ 0) (h32 : n < 2 ^ 32)
    (h2 : n - 1 <<< ctz n ≠ 0) : ctz n + 1 ≤ ctz (n - 1 <<< ctz n) := by
  have hlt : n - 1 <<< ctz n < 2 ^ 32 := by
    have := Nat.sub_le n (1 <<< ctz n); omega
  have hbit := ctz_testBit (n - 1 <<< ctz n) h2 hlt
  have hcl := (ctz_clear n (ctz (n - 1 <<< ctz n)) h0 h32).mp hbit
  have := ctz_min n (ctz (n - 1 <<< ctz n)) h32 hcl.1
  have hne := hcl.2
  omega

theorem ctz_go_one_shiftLeft : ∀ (k p : Nat), p < k → ctz_go k (1 <<< p) = p := by
  intro k
  induction k with
  | zero => intro p hp; omega
  | succ k ih =>
    intro p hp
    unfold ctz_go
    cases p with
    | zero => norm_num
    | succ p =>
      have hpow : (1 : Nat) <<< (p + 1) = 2 * (1 <<< p) := by
        rw [Nat.one_shiftLeft, Nat.one_shiftLeft]; ring
      have hmod : (1 : Nat) <<< (p + 1) % 2 = 0 := by omega
      have hdiv : (1 : Nat) <<< (p + 1) / 2 = 1 <<< p := by omega
      rw [if_neg (by omega), hdiv, ih p (by omega)]

theorem ctz_one_shiftLeft (p : Nat) (hp : p < 32) : ctz (1 <<< p) = p :=
  ctz_go_one_shiftLeft 32 p hp

/-! ### `scan_queue` and `pick_loop` characterization -/

theorem scan_queue_some (s : scheduler_t) :
    ∀ (l : List Nat) (t : Nat), scan_queue s l = some t →
      t ∈ l ∧ (s.task_pool t).state = TASK_READY ∧
      ∃ l1 l2, l = l1 ++ t :: l2 ∧ ∀ u ∈ l1, (s.task_pool u).state ≠ TASK_READY := by
  intro l
  induction l with
  | nil => intro t h; simp [scan_queue] at h
  | cons a rest ih =>
    intro t h
    unfold scan_queue at h
    by_cases ha : (s.task_pool a).state = TASK_READY
    · rw [if_pos ha] at h
      injection h with h
      subst h
      exact ⟨List.mem_cons_self a rest, ha, [], rest, rfl, by simp⟩
    · rw [if_neg ha] at h
      obtain ⟨hmem, hst, l1, l2, hsplit, hno⟩ := ih t h
      refine ⟨List.mem_cons_of_mem a hmem, hst, a :: l1, l2, by rw [hsplit]; rfl, ?_⟩
      intro u hu
      rcases List.mem_cons.mp hu with hu | hu
      · subst hu; exact ha
      · exact hno u hu

theorem scan_queue_none_iff (s : scheduler_t) :
    ∀ (l : List Nat), scan_queue s l = none ↔
      ∀ u ∈ l, (s.task_pool u).state ≠ TASK_READY := by
  intro l
  induction l with
  | nil => simp [scan_queue]
  | cons a rest ih =>
    unfold scan_queue
    by_cases ha : (s.task_pool a).state = TASK_READY
    · rw [if_pos ha]
      constructor
      · intro h; exact absurd h (Option.some_ne_none a)
      · intro hall; exact absurd ha (hall a (List.mem_cons_self a rest))
    · rw [if_neg ha, ih]
      constructor
      · intro h u hu
        rcases List.mem_cons.mp hu with hu | hu
        · subst hu; exact ha
        · exact h u hu
      · intro h u hu; exact h u (List.mem_cons_of_mem a hu)

theorem pick_loop_some (s : scheduler_t) :
    ∀ (f bits t : Nat), bits < 2 ^ 32 → (bits ≠ 0 → 33 ≤ f + ctz bits) →
      pick_loop s f bits = some t →
      ∃ p, p < 32 ∧ bits.testBit p = true ∧ scan_queue s (s.ready_q p) = some t ∧
        ∀ q, q < p → bits.testBit q = true → scan_queue s (s.ready_q q) = none := by
  intro f
  induction f with
  | zero => intro bits t _ _ h; simp [pick_loop] at h
  | succ f ih =>
    intro bits t h32 hfu h
    unfold pick_loop at h
    by_cases hb : bits = 0
    · rw [if_pos hb] at h; exact absurd h (by simp)
    · rw [if_neg hb] at h
      rcases hscan2 : scan_queue s (s.ready_q (ctz bits)) with _ | u
      · rw [hscan2] at h
        have h2 : pick_loop s f (bits - 1 <<< ctz bits) = some t := h
        have h32s : bits - 1 <<< ctz bits < 2 ^ 32 := by
          have := Nat.sub_le bits (1 <<< ctz bits); omega
        have hfus : bits - 1 <<< ctz bits ≠ 0 → 33 ≤ f + ctz (bits - 1 <<< ctz bits) := by
          intro hne
          have := ctz_increase bits hb h32 hne
          have := hfu hb
          omega
        obtain ⟨p, hp32, hbit, hsc, hmin⟩ := ih (bits - 1 <<< ctz bits) t h32s hfus h2
        have hcl := ctz_clear bits p hb h32
        refine ⟨p, hp32, (hcl.mp hbit).1, hsc, ?_⟩
        intro q hq hbq
        by_cases hqc : q = ctz bits
        · rw [hqc]; exact hscan2
        · exact hmin q hq ((ctz_clear bits q hb h32).mpr ⟨hbq, hqc⟩)
      · rw [hscan2] at h
        have h2 : (some u : Option Nat) = some t := h
        injection h2 with h2
        subst h2
        refine ⟨ctz bits, ctz_lt_32 bits hb h32, ctz_testBit bits hb h32, hscan2, ?_⟩
        intro q hq hbq
        have := ctz_min bits q h32 hbq
        omega

theorem pick_loop_none (s : scheduler_t) :
    ∀ (f bits : Nat), bits < 2 ^ 32 → (bits ≠ 0 → 33 ≤ f + ctz bits) →
      pick_loop s f bits = none →
      ∀ q, bits.testBit q = true → scan_queue s (s.ready_q q) = none := by
  intro f
  induction f with
  | zero =>
    intro bits h32 hfu _ q hq
    by_cases hb : bits = 0
    · subst hb; simp [Nat.zero_testBit] at hq
    · exfalso
      have h33 := hfu hb
      have hbit := ctz_testBit bits hb h32
      have := Nat.testBit_implies_ge hbit
      have : (2 : Nat) ^ 33 ≤ 2 ^ ctz bits := Nat.pow_le_pow_right (by omega) (by omega)
      have : (2 : Nat) ^ 33 = 2 * 2 ^ 32 := by ring
      omega
  | succ f ih =>
    intro bits h32 hfu h q hq
    unfold pick_loop at h
    by_cases hb : bits = 0
    · subst hb; simp [Nat.zero_testBit] at hq
    · rw [if_neg hb] at h
      rcases hscan : scan_queue s (s.ready_q (ctz bits)) with _ | u
      · rw [hscan] at h
        have h2 : pick_loop s f (bits - 1 <<< ctz bits) = none := h
        by_cases hqc : q = ctz bits
        · rw [hqc]; exact hscan
        · have h32s : bits - 1 <<< ctz bits < 2 ^ 32 := by
            have := Nat.sub_le bits (1 <<< ctz bits); omega
          have hfus : bits - 1 <<< ctz bits ≠ 0 → 33 ≤ f + ctz (bits - 1 <<< ctz bits) := by
            intro hne
            have := ctz_increase bits hb h32 hne
            have := hfu hb
            omega
          exact ih (bits - 1 <<< ctz bits) h32s hfus h2 q
            ((ctz_clear bits q hb h32).mpr ⟨hq, hqc⟩)
      · rw [hscan] at h
        have h2 : (some u : Option Nat) = none := h
        exact absurd h2 (by simp)

/-- With the forward bitmap invariant and a 32-bit bitmap, every FIFO at an
index that does not fit the bitmap is empty. -/
theorem ready_q_ge_32_empty (s : scheduler_t) (hlt : s.ready_bitmap < 2 ^ 32)
    (hfwd : ∀ p, s.ready_q p ≠ [] → s.ready_bitmap.testBit p = true) :
    ∀ p, 32 ≤ p → s.ready_q p = [] := by
  intro p hp
  by_contra hne
  have hbit := hfwd p hne
  have := Nat.testBit_implies_ge hbit
  have : (2 : Nat) ^ 32 ≤ 2 ^ p := Nat.pow_le_pow_right (by omega) hp
  omega

/-- Characterization of a successful `pick_next_task`: the result is the
first `TASK_READY` task, in head-to-tail order, of the nonempty-FIFO
priority of minimal index; the function modifies nothing, so the returned
task is still on that FIFO. -/
theorem pick_next_task_some (s : scheduler_t) (t : Nat)
    (hlt : s.ready_bitmap < 2 ^ 32)
    (hfwd : ∀ p, s.ready_q p ≠ [] → s.ready_bitmap.testBit p = true)
    (h : pick_next_task s = some t) :
    ∃ p, p < 32 ∧ t ∈ s.ready_q p ∧ (s.task_pool t).state = TASK_READY ∧
      (∃ l1 l2, s.ready_q p = l1 ++ t :: l2 ∧
        ∀ u ∈ l1, (s.task_pool u).state ≠ TASK_READY) ∧
      ∀ q, ∀ u ∈ s.ready_q q, (s.task_pool u).state = TASK_READY → p ≤ q := by
  unfold pick_next_task at h
  by_cases hb : s.ready_bitmap = 0
  · rw [if_pos hb] at h; exact absurd h (by simp)
  · rw [if_neg hb] at h
    obtain ⟨p, hp32, hbit, hsc, hmin⟩ :=
      pick_loop_some s 33 s.ready_bitmap t hlt (by omega) h
    obtain ⟨hmem, hst, hfirst⟩ := scan_queue_some s (s.ready_q p) t hsc
    refine ⟨p, hp32, hmem, hst, hfirst, ?_⟩
    intro q u hu hR
    by_cases hlt2 : q < p
    · exfalso
      have hne : s.ready_q q ≠ [] := by intro hc; rw [hc] at hu; exact absurd hu (by simp)
      have hsc2 := hmin q hlt2 (hfwd q hne)
      exact (scan_queue_none_iff s (s.ready_q q)).mp hsc2 u hu hR
    · omega

/-- `pick_next_task` returns null iff no `TASK_READY` task sits on any
ready FIFO (under the forward bitmap invariant). -/
theorem pick_next_task_none_iff (s : scheduler_t)
    (hlt : s.ready_bitmap < 2 ^ 32)
    (hfwd : ∀ p, s.ready_q p ≠ [] → s.ready_bitmap.testBit p = true) :
    (pick_next_task s = none ↔
      ∀ q, ∀ u ∈ s.ready_q q, (s.task_pool u).state ≠ TASK_READY) := by
  constructor
  · intro h q u hu hR
    have hne : s.ready_q q ≠ [] := by intro hc; rw [hc] at hu; exact absurd hu (by simp)
    have hbit := hfwd q hne
    unfold pick_next_task at h
    by_cases hb : s.ready_bitmap = 0
    · rw [hb] at hbit; simp [Nat.zero_testBit] at hbit
    · rw [if_neg hb] at h
      have hsc := pick_loop_none s 33 s.ready_bitmap hlt (by omega) h q hbit
      exact (scan_queue_none_iff s (s.ready_q q)).mp hsc u hu hR
  · intro hall
    rcases h : pick_next_task s with _ | t
    · rfl
    · exfalso
      obtain ⟨p, _, hmem, hst, -⟩ := pick_next_task_some s t hlt hfwd h
      exact hall p t hmem hst

/-! ### Well-formedness is preserved by every operation -/

theorem ready_enqueue_ready_q (s : scheduler_t) (t q : Nat) :
    (ready_enqueue s t).ready_q q =
      if q = (s.task_pool t).priority % 32 then s.ready_q q ++ [t] else s.ready_q q := by
  unfold ready_enqueue
  by_cases he : s.ready_q ((s.task_pool t).priority % 32) = []
  · rw [if_pos he]
    by_cases hq : q = (s.task_pool t).priority % 32
    · subst hq; simp [Function.update_same, he]
    · simp [Function.update_noteq hq, hq]
  · rw [if_neg he]
    by_cases hq : q = (s.task_pool t).priority % 32
    · subst hq; simp [Function.update_same]
    · simp [Function.update_noteq hq, hq]

theorem ready_dequeue_ready_q (s : scheduler_t) (t q : Nat) :
    (ready_dequeue s t).ready_q q =
      if q = (s.task_pool t).priority % 32 then (s.ready_q q).erase t else s.ready_q q := by
  unfold ready_dequeue
  by_cases hq : q = (s.task_pool t).priority % 32
  · subst hq; simp [Function.update_same]
  · simp [Function.update_noteq hq, hq]

theorem ready_enqueue_bitmap_mono (s : scheduler_t) (t q : Nat)
    (h : s.ready_bitmap.testBit q = true) :
    (ready_enqueue s t).ready_bitmap.testBit q = true := by
  simp only [ready_enqueue]
  split
  · simp [Nat.testBit_or, h]
  · exact h

theorem ready_enqueue_bitmap_lt (s : scheduler_t) (t : Nat)
    (h : s.ready_bitmap < 2 ^ 32) : (ready_enqueue s t).ready_bitmap < 2 ^ 32 := by
  simp only [ready_enqueue]
  split
  · refine Nat.or_lt_two_pow h ?_
    rw [Nat.one_shiftLeft]
    exact Nat.pow_lt_pow_right (by omega) (Nat.mod_lt _ (by omega))
  · exact h

theorem ready_enqueue_bitmap_self (s : scheduler_t) (t : Nat)
    (hfwd : ∀ p, s.ready_q p ≠ [] → s.ready_bitmap.testBit p = true) :
    (ready_enqueue s t).ready_bitmap.testBit ((s.task_pool t).priority % 32) = true := by
  simp only [ready_enqueue]
  split
  · rw [Nat.testBit_or, Nat.one_shiftLeft, Nat.testBit_two_pow]
    simp
  · next hne => exact hfwd _ hne

theorem wf_ready_enqueue {s : scheduler_t} {t : Nat} (h : WF s)
    (ht : t < s.task_count) (hnm : ∀ p, t ∉ s.ready_q p) : WF (ready_enqueue s t) := by
  constructor
  · rw [ready_enqueue_task_count]; exact h.count_le
  · exact ready_enqueue_bitmap_lt s t h.bitmap_lt
  · intro p u hu
    rw [ready_enqueue_ready_q] at hu
    rw [ready_enqueue_task_count]
    split at hu
    · rcases List.mem_append.mp hu with hu | hu
      · exact h.mem_lt p u hu
      · simp at hu; omega
    · exact h.mem_lt p u hu
  · intro p u hu
    rw [ready_enqueue_ready_q] at hu
    rw [ready_enqueue_task_pool]
    split at hu
    · next hp =>
      rcases List.mem_append.mp hu with hu | hu
      · exact h.mem_prio p u hu
      · simp at hu; subst hu; omega
    · exact h.mem_prio p u hu
  · intro p
    rw [ready_enqueue_ready_q]
    split
    · next hp =>
      rw [List.nodup_append]
      exact ⟨h.nodup p, List.nodup_singleton t, by
        intro u hu hv
        simp at hv
        subst hv
        exact hnm p hu⟩
    · exact h.nodup p
  · intro p hp
    rw [ready_enqueue_ready_q] at hp
    split at hp
    · next hpe => rw [hpe]; exact ready_enqueue_bitmap_self s t h.bitmap_fwd
    · exact ready_enqueue_bitmap_mono s t p (h.bitmap_fwd p hp)
  · intro c hc
    rw [ready_enqueue_current] at hc
    rw [ready_enqueue_task_count]
    exact h.current_lt c hc

theorem wf_ready_dequeue {s : scheduler_t} (t : Nat) (h : WF s) :
    WF (ready_dequeue s t) := by
  constructor
  · exact h.count_le
  · exact h.bitmap_lt
  · intro p u hu
    rw [ready_dequeue_ready_q] at hu
    split at hu
    · exact h.mem_lt p u (List.mem_of_mem_erase hu)
    · exact h.mem_lt p u hu
  · intro p u hu
    rw [ready_dequeue_ready_q] at hu
    split at hu
    · exact h.mem_prio p u (List.mem_of_mem_erase hu)
    · exact h.mem_prio p u hu
  · intro p
    rw [ready_dequeue_ready_q]
    split
    · exact List.Nodup.erase t (h.nodup p)
    · exact h.nodup p
  · intro p hp
    rw [ready_dequeue_ready_q] at hp
    split at hp
    · refine h.bitmap_fwd p ?_
      intro hc
      rw [hc] at hp
      simp [List.erase_nil] at hp
    · exact h.bitmap_fwd p hp
  · exact h.current_lt

theorem ready_dequeue_not_mem {s : scheduler_t} (t : Nat) (h : WF s) :
    ∀ p, t ∉ (ready_dequeue s t).ready_q p := by
  intro p
  rw [ready_dequeue_ready_q]
  split
  · exact List.Nodup.not_mem_erase (h.nodup _)
  · next hp =>
    intro hmem
    exact hp (h.mem_prio p t hmem).symm

theorem mem_ready_dequeue_subset {s : scheduler_t} {t q u : Nat}
    (h : u ∈ (ready_dequeue s t).ready_q q) : u ∈ s.ready_q q := by
  rw [ready_dequeue_ready_q] at h
  split at h
  · exact List.mem_of_mem_erase h
  · exact h

theorem wf_update_pool {s : scheduler_t} {i : Nat} {nt : task_t} (h : WF s)
    (hpr : nt.priority = (s.task_pool i).priority) :
    WF { s with task_pool := Function.update s.task_pool i nt } := by
  constructor
  · exact h.count_le
  · exact h.bitmap_lt
  · exact h.mem_lt
  · intro p u hu
    by_cases he : u = i
    · subst he
      simp only [Function.update_same, hpr]
      exact h.mem_prio p u hu
    · simp only [Function.update_noteq he]
      exact h.mem_prio p u hu
  · exact h.nodup
  · exact h.bitmap_fwd
  · exact h.current_lt

theorem wf_dispatch {s : scheduler_t} {next : Nat} {nt : task_t} (h : WF s)
    (hpr : nt.priority = (s.task_pool next).priority) (hlt : next < s.task_count) :
    WF { s with current := some next, task_pool := Function.update s.task_pool next nt } := by
  constructor
  · exact h.count_le
  · exact h.bitmap_lt
  · exact h.mem_lt
  · intro p u hu
    by_cases he : u = next
    · subst he
      simp only [Function.update_same, hpr]
      exact h.mem_prio p u hu
    · simp only [Function.update_noteq he]
      exact h.mem_prio p u hu
  · exact h.nodup
  · exact h.bitmap_fwd
  · intro c hc
    injection hc with hc
    subst hc
    exact hlt

theorem wf_wake_step {s : scheduler_t} (i : Nat) (h : WF s) : WF (wake_step s i) := by
  simp only [wake_step]
  split
  · split <;> exact wf_update_pool h rfl
  · exact h

theorem wf_foldl_wake {s : scheduler_t} (l : List Nat) (h : WF s) :
    WF (l.foldl wake_step s) := by
  induction l generalizing s with
  | nil => exact h
  | cons a l ih => exact ih (wf_wake_step a h)

theorem wf_timer_wake_phase {s : scheduler_t} (h : WF s) : WF (timer_wake_phase s) :=
  wf_foldl_wake _ h

theorem wf_swi_handler {s : scheduler_t} (h : WF s) : WF (swi_handler s) := by
  unfold swi_handler
  rcases hc : s.current with _ | c
  · simp only [hc]
    rcases hp : pick_next_task s with _ | nx
    · simp only [hp]; exact h
    · simp only [hp]
      rw [if_neg (by simp)]
      obtain ⟨p, -, hmem, -⟩ := pick_next_task_some s nx h.bitmap_lt h.bitmap_fwd hp
      exact wf_dispatch h rfl (h.mem_lt p nx hmem)
  · simp only [hc]
    have hw1 : WF (ready_dequeue s c) := wf_ready_dequeue c h
    rcases hp : pick_next_task (ready_dequeue s c) with _ | nx
    · simp only [hp]; exact hw1
    · simp only [hp]
      obtain ⟨p, -, hmem, -⟩ :=
        pick_next_task_some _ nx hw1.bitmap_lt hw1.bitmap_fwd hp
      have hne : ¬(some c = some nx) := by
        intro he
        injection he with he
        subst he
        exact ready_dequeue_not_mem c h p hmem
      rw [if_neg hne]
      have hnxlt : nx < (ready_dequeue s c).task_count := hw1.mem_lt p nx hmem
      split
      · next hrun =>
        have hclt : c < s.task_count := h.current_lt c hc
        have hwdem : WF { ready_dequeue s c with
            task_pool := Function.update (ready_dequeue s c).task_pool c
              ({ (ready_dequeue s c).task_pool c with state := TASK_READY }) } :=
          wf_update_pool hw1 rfl
        have hwenq := wf_ready_enqueue hwdem (by
            simpa [ready_dequeue_task_count] using hclt) (by
            intro q
            have := ready_dequeue_not_mem c h q
            simpa using this)
        refine wf_dispatch hwenq rfl ?_
        rw [ready_enqueue_task_count]
        simp only [ready_dequeue_task_count] at hnxlt ⊢
        exact hnxlt
      · exact wf_dispatch hw1 rfl hnxlt

theorem wf_scheduler_init : WF scheduler_init := by
  constructor <;> simp [scheduler_init]

theorem wf_task_create {s : scheduler_t} (func stack size priority : Nat) (h : WF s) :
    WF (task_create s func stack size priority) := by
  unfold task_create
  split
  · exact h
  · next hfull =>
    have hw1 : WF { s with
        task_pool := Function.update s.task_pool s.task_count
          { stack := stack, stack_size := size,
            sp := if size ≥ 32 then stack + (size - 16) else stack + (size - 1),
            regs := [0, 0, 0, 0, 0, 0, 0, 0], lr := 0, pc := func,
            priority := priority % 32, state := TASK_READY, wake_tick := 0 },
        task_count := s.task_count + 1 } := by
      constructor
      · simp only []; omega
      · exact h.bitmap_lt
      · intro p u hu
        have := h.mem_lt p u hu
        simp only []
        omega
      · intro p u hu
        have hlt := h.mem_lt p u hu
        have hne : u ≠ s.task_count := by omega
        simp only [Function.update_noteq hne]
        exact h.mem_prio p u hu
      · exact h.nodup
      · exact h.bitmap_fwd
      · intro c hc
        have := h.current_lt c hc
        simp only []
        omega
    refine wf_ready_enqueue hw1 (by simp) ?_
    intro p hmem
    have := h.mem_lt p s.task_count hmem
    omega

theorem wf_sleep {s : scheduler_t} (ms : Nat) (h : WF s) : WF (sleep s ms) := by
  unfold sleep
  rcases hc : s.current with _ | c
  · exact h
  · exact wf_swi_handler (wf_update_pool h rfl)

theorem wf_timer0_irq_handler {s : scheduler_t} (h : WF s) :
    WF (timer0_irq_handler s) := wf_swi_handler (wf_timer_wake_phase h)

theorem wf_scheduler_start {s : scheduler_t} (h : WF s) : WF (scheduler_start s) := by
  unfold scheduler_start
  rcases hp : pick_next_task s with _ | first
  · exact h
  · obtain ⟨p, -, hmem, -⟩ := pick_next_task_some s first h.bitmap_lt h.bitmap_fwd hp
    exact wf_dispatch h rfl (h.mem_lt p first hmem)

/-- Every reachable scheduler state is well-formed. -/
theorem reachable_wf {s : scheduler_t} (h : Reachable s) : WF s := by
  induction h with
  | init => exact wf_scheduler_init
  | create s func stack size priority _ ih => exact wf_task_create func stack size priority ih
  | sleep_r s ms _ ih => exact wf_sleep ms ih
  | tick s _ ih => exact wf_timer0_irq_handler ih
  | start s _ ih => exact wf_scheduler_start ih

/-! ### Dispatch behaviour of `swi_handler` -/

theorem wf_swi_choice_state {s : scheduler_t} (h : WF s) : WF (swi_choice_state s) := by
  unfold swi_choice_state
  rcases s.current with _ | c
  · exact h
  · exact wf_ready_dequeue c h

/-- Whenever `pick_next_task` succeeds at the choice point, `swi_handler`
installs exactly that task as the running current task — and, because
`pick_next_task` never dequeues, the new current task is still on the ready
FIFO it was found on. -/
theorem swi_handler_dispatch {s : scheduler_t} (h : WF s) {t : Nat}
    (hp : pick_next_task (swi_choice_state s) = some t) :
    (swi_handler s).current = some t ∧
    ((swi_handler s).task_pool t).state = TASK_RUNNING ∧
    ∀ p, t ∈ (swi_choice_state s).ready_q p → t ∈ (swi_handler s).ready_q p := by
  rcases hc : s.current with _ | c
  · have hp2 : pick_next_task s = some t := by
      simpa [swi_choice_state, hc] using hp
    unfold swi_handler
    simp only [hc, hp2]
    rw [if_neg (by simp)]
    refine ⟨rfl, by simp [Function.update_same], ?_⟩
    intro p hmem
    simpa [swi_choice_state, hc] using hmem
  · have hp2 : pick_next_task (ready_dequeue s c) = some t := by
      simpa [swi_choice_state, hc] using hp
    have hw1 : WF (ready_dequeue s c) := wf_ready_dequeue c h
    obtain ⟨q0, -, hmem0, -⟩ :=
      pick_next_task_some _ t hw1.bitmap_lt hw1.bitmap_fwd hp2
    have hne : ¬(some c = some t) := by
      intro he
      injection he with he
      subst he
      exact ready_dequeue_not_mem c h q0 hmem0
    unfold swi_handler
    simp only [hc, hp2]
    rw [if_neg hne]
    split
    · next hrun =>
      refine ⟨rfl, by simp [Function.update_same], ?_⟩
      intro p hmem
      have hmem1 : t ∈ (ready_dequeue s c).ready_q p := by
        simpa [swi_choice_state, hc] using hmem
      simp only []
      rw [ready_enqueue_ready_q]
      split
      · exact List.mem_append_left _ hmem1
      · exact hmem1
    · refine ⟨rfl, by simp [Function.update_same], ?_⟩
      intro p hmem
      simpa [swi_choice_state, hc] using hmem

/-- `swi_handler` entered with a non-`Running` current task `c` (the
`sleep` path): `c`'s TCB fields are untouched, `c` ends up on no ready
FIFO, a successful pick dispatches the picked task, and a failed pick
leaves the state exactly `ready_dequeue` of the entry state. -/
theorem swi_handler_nonrunning {s : scheduler_t} (h : WF s) {c : Nat}
    (hc : s.current = some c) (hnr : (s.task_pool c).state ≠ TASK_RUNNING) :
    (swi_handler s).task_pool c = s.task_pool c ∧
    (∀ p, c ∉ (swi_handler s).ready_q p) ∧
    (∀ t, pick_next_task (ready_dequeue s c) = some t →
        (swi_handler s).current = some t ∧
        ((swi_handler s).task_pool t).state = TASK_RUNNING) ∧
    (pick_next_task (ready_dequeue s c) = none → swi_handler s = ready_dequeue s c) := by
  unfold swi_handler
  simp only [hc]
  rcases hp : pick_next_task (ready_dequeue s c) with _ | t
  · exact ⟨rfl, fun p => ready_dequeue_not_mem c h p, fun t ht => by simp at ht, fun _ => rfl⟩
  · have hw1 : WF (ready_dequeue s c) := wf_ready_dequeue c h
    obtain ⟨q0, -, hmem0, -⟩ :=
      pick_next_task_some _ t hw1.bitmap_lt hw1.bitmap_fwd hp
    have hne : ¬(some c = some t) := by
      intro he
      injection he with he
      subst he
      exact ready_dequeue_not_mem c h q0 hmem0
    have htc : t ≠ c := by intro he; exact hne (by rw [he])
    simp only [hp]
    rw [if_neg hne]
    rw [if_neg (by simpa [ready_dequeue_task_pool] using hnr)]
    refine ⟨?_, ?_, ?_, ?_⟩
    · simp only [Function.update_noteq (Ne.symm htc), ready_dequeue_task_pool]
    · intro p
      exact ready_dequeue_not_mem c h p
    · intro u hu
      injection hu with hu
      subst hu
      exact ⟨rfl, by simp [Function.update_same]⟩
    · intro hnone
      exact absurd hnone (by simp)

/-! ### C3, C4, C2, C8 amended theorems -/

/-- C3 (amended): `ready_enqueue` sets bitmap bit `p` when the FIFO becomes
nonempty, but `ready_dequeue` never clears any bit; hence in every
reachable state only the forward implication holds: a nonempty FIFO implies
its bit is set, while a set bit with an empty FIFO is reachable
(see the counterexample). -/
theorem c3_bitmap_forward_invariant (s : scheduler_t) (h : Reachable s) :
    ∀ p, s.ready_q p ≠ [] → s.ready_bitmap.testBit p = true :=
  (reachable_wf h).bitmap_fwd

/-- Witness for C3: bit 0 after creating one priority-0 task. -/
theorem c3_bitmap_forward_invariant_witness :
    (createN 1 0).ready_bitmap.testBit 0 = true :=
  c3_bitmap_forward_invariant (createN 1 0)
    (Reachable.create _ 0 0 0 0 Reachable.init) 0 (by decide)

/-- C4 (amended): on every reachable state `pick_next_task` returns null
iff no `TASK_READY` task is on any ready FIFO; a successful pick returns
the first `TASK_READY` task in head-to-tail order within the
lowest-numbered eligible priority (least-significant-set-bit scan), and it
performs no dequeue — the returned task is still on its FIFO. -/
theorem c4_pick_next_characterization (s : scheduler_t) (h : Reachable s) :
    (pick_next_task s = none ↔
      ∀ q, ∀ u ∈ s.ready_q q, (s.task_pool u).state ≠ TASK_READY) ∧
    ∀ t, pick_next_task s = some t →
      ∃ p, p < 32 ∧ t ∈ s.ready_q p ∧ (s.task_pool t).state = TASK_READY ∧
        (∃ l1 l2, s.ready_q p = l1 ++ t :: l2 ∧
          ∀ u ∈ l1, (s.task_pool u).state ≠ TASK_READY) ∧
        ∀ q, ∀ u ∈ s.ready_q q, (s.task_pool u).state = TASK_READY → p ≤ q := by
  have hw := reachable_wf h
  exact ⟨pick_next_task_none_iff s hw.bitmap_lt hw.bitmap_fwd,
         fun t ht => pick_next_task_some s t hw.bitmap_lt hw.bitmap_fwd ht⟩

/-- Witness for C4 at the two-task state. -/
theorem c4_pick_next_characterization_witness :
    ∃ p, p < 32 ∧ 0 ∈ exCreate2.ready_q p ∧
      (exCreate2.task_pool 0).state = TASK_READY ∧
      (∃ l1 l2, exCreate2.ready_q p = l1 ++ 0 :: l2 ∧
        ∀ u ∈ l1, (exCreate2.task_pool u).state ≠ TASK_READY) ∧
      ∀ q, ∀ u ∈ exCreate2.ready_q q, (exCreate2.task_pool u).state = TASK_READY → p ≤ q :=
  (c4_pick_next_characterization exCreate2
    (Reachable.create _ 0 0 0 0 (Reachable.create _ 0 0 0 0 Reachable.init))).2 0 (by decide)

/-- C2 (amended): in every reachable state a TCB is on at most one ready
FIFO (each FIFO is duplicate-free and the FIFOs are pairwise disjoint);
but `pick_next_task` does not dequeue, so the current task stays ON its
ready FIFO: after `scheduler_start` and after every tick-engine invocation
that dispatches a task, the new current task is `TASK_RUNNING` and still a
member of a ready FIFO. -/
theorem c2_list_discipline (s : scheduler_t) (h : Reachable s) :
    (∀ p, (s.ready_q p).Nodup) ∧
    (∀ p q t, t ∈ s.ready_q p → t ∈ s.ready_q q → p = q) ∧
    (∀ t, pick_next_task s = some t →
      (scheduler_start s).current = some t ∧
      ((scheduler_start s).task_pool t).state = TASK_RUNNING ∧
      ∃ p, p < 32 ∧ t ∈ (scheduler_start s).ready_q p) ∧
    (∀ t, pick_next_task (tick_choice_state s) = some t →
      (timer0_irq_handler s).current = some t ∧
      ((timer0_irq_handler s).task_pool t).state = TASK_RUNNING ∧
      ∃ p, p < 32 ∧ t ∈ (timer0_irq_handler s).ready_q p) := by
  have hw := reachable_wf h
  refine ⟨hw.nodup, ?_, ?_, ?_⟩
  · intro p q t hp hq
    have h1 := hw.mem_prio p t hp
    have h2 := hw.mem_prio q t hq
    omega
  · intro t ht
    obtain ⟨p, hp32, hmem, -⟩ := pick_next_task_some s t hw.bitmap_lt hw.bitmap_fwd ht
    unfold scheduler_start
    rw [ht]
    exact ⟨rfl, by simp [Function.update_same], p, hp32, hmem⟩
  · intro t ht
    have hwk : WF (timer_wake_phase s) := wf_timer_wake_phase hw
    have ht2 : pick_next_task (swi_choice_state (timer_wake_phase s)) = some t := ht
    obtain ⟨hcur, hst, hq⟩ := swi_handler_dispatch hwk ht2
    have hwc : WF (swi_choice_state (timer_wake_phase s)) := wf_swi_choice_state hwk
    obtain ⟨p, hp32, hmem, -⟩ :=
      pick_next_task_some _ t hwc.bitmap_lt hwc.bitmap_fwd ht2
    exact ⟨hcur, hst, p, hp32, hq p hmem⟩

/-- Witness for C2 at the two-task state. -/
theorem c2_list_discipline_witness :
    (scheduler_start exCreate2).current = some 0 ∧
    ((scheduler_start exCreate2).task_pool 0).state = TASK_RUNNING ∧
    ∃ p, p < 32 ∧ 0 ∈ (scheduler_start exCreate2).ready_q p :=
  (c2_list_discipline exCreate2
    (Reachable.create _ 0 0 0 0 (Reachable.create _ 0 0 0 0 Reachable.init))).2.2.1 0 (by decide)

/-- C8 (amended): `sleep(ms)` from the current task `c` sets
`c.wake_tick = ms` and `c.state = Sleeping` and then immediately raises
`swi 0`: before `sleep` returns, `swi_handler` has dequeued `c`, and — if
`pick_next_task` finds a ready task — dispatched a successor; only when no
queued ready task exists does the caller remain current (the returned state
is then exactly the dequeued one). -/
theorem c8_sleep_raises_immediate_reschedule (s : scheduler_t) (c ms : Nat)
    (h : Reachable s) (hc : s.current = some c) :
    ((sleep s ms).task_pool c).wake_tick = ms ∧
    ((sleep s ms).task_pool c).state = TASK_SLEEPING ∧
    (∀ p, c ∉ (sleep s ms).ready_q p) ∧
    (∀ t, pick_next_task (ready_dequeue (sleep_enter s c ms) c) = some t →
        (sleep s ms).current = some t ∧
        ((sleep s ms).task_pool t).state = TASK_RUNNING) ∧
    (pick_next_task (ready_dequeue (sleep_enter s c ms) c) = none →
        sleep s ms = ready_dequeue (sleep_enter s c ms) c) := by
  have hw := reachable_wf h
  have hw1 : WF (sleep_enter s c ms) := wf_update_pool hw rfl
  have hc1 : (sleep_enter s c ms).current = some c := hc
  have hnr : ((sleep_enter s c ms).task_pool c).state ≠ TASK_RUNNING := by
    simp [sleep_enter, Function.update_same]
  have hsl : sleep s ms = swi_handler (sleep_enter s c ms) := by
    unfold sleep
    rw [hc]
  obtain ⟨hpool, hnoq, hdisp, hnone⟩ := swi_handler_nonrunning hw1 hc1 hnr
  rw [hsl]
  refine ⟨?_, ?_, hnoq, hdisp, hnone⟩
  · rw [hpool]
    simp [sleep_enter, Function.update_same]
  · rw [hpool]
    simp [sleep_enter, Function.update_same]

/-- Witness for C8 at the two-task state (T1 current, sleeps 5 ticks). -/
theorem c8_sleep_raises_immediate_reschedule_witness :
    ((sleep exStart2 5).task_pool 0).wake_tick = 5 ∧
    ((sleep exStart2 5).task_pool 0).state = TASK_SLEEPING :=
  ⟨(c8_sleep_raises_immediate_reschedule exStart2 0 5
      (Reachable.start _ (Reachable.create _ 0 0 0 0
        (Reachable.create _ 0 0 0 0 Reachable.init))) (by decide)).1,
   (c8_sleep_raises_immediate_reschedule exStart2 0 5
      (Reachable.start _ (Reachable.create _ 0 0 0 0
        (Reachable.create _ 0 0 0 0 Reachable.init))) (by decide)).2.1⟩

/-! ### Round-robin machinery (C7) -/

theorem ready_enqueue_bitmap_eq (s : scheduler_t) (t : Nat) :
    (ready_enqueue s t).ready_bitmap =
      if s.ready_q ((s.task_pool t).priority % 32) = [] then
        s.ready_bitmap ||| 1 <<< ((s.task_pool t).priority % 32)
      else s.ready_bitmap := by
  simp only [ready_enqueue]
  split <;> simp_all

theorem scan_queue_cons (s : scheduler_t) (t : Nat) (l : List Nat) :
    scan_queue s (t :: l) =
      if (s.task_pool t).state = TASK_READY then some t else scan_queue s l := rfl

theorem pick_loop_succ (s : scheduler_t) (f bits : Nat) :
    pick_loop s (f + 1) bits =
      if bits = 0 then none
      else
        match scan_queue s (s.ready_q (ctz bits)) with
        | some t => some t
        | none => pick_loop s f (bits - (1 <<< ctz bits)) := rfl

theorem one_shiftLeft_ne_zero (p : Nat) : (1 : Nat) <<< p ≠ 0 := by
  rw [Nat.one_shiftLeft]
  exact (Nat.two_pow_pos p).ne'

/-- `pick_next_task` on a state whose bitmap is the single bit `p` and whose
priority-`p` FIFO starts with a `TASK_READY` task returns that task. -/
theorem pick_next_task_single (s : scheduler_t) (p t : Nat) (l : List Nat)
    (hp : p < 32) (hb : s.ready_bitmap = 1 <<< p) (hq : s.ready_q p = t :: l)
    (hr : (s.task_pool t).state = TASK_READY) : pick_next_task s = some t := by
  unfold pick_next_task
  rw [hb, if_neg (one_shiftLeft_ne_zero p)]
  rw [show (33 : Nat) = 32 + 1 from rfl, pick_loop_succ,
    if_neg (one_shiftLeft_ne_zero p), ctz_one_shiftLeft p hp, hq, scan_queue_cons,
    if_pos hr]

/-- `pick_next_task` on a state whose bitmap is the single bit `p` but whose
priority-`p` FIFO is empty returns none (the stale bit is scanned in vain). -/
theorem pick_next_task_single_empty (s : scheduler_t) (p : Nat)
    (hp : p < 32) (hb : s.ready_bitmap = 1 <<< p) (hq : s.ready_q p = []) :
    pick_next_task s = none := by
  unfold pick_next_task
  rw [hb, if_neg (one_shiftLeft_ne_zero p)]
  rw [show (33 : Nat) = 32 + 1 from rfl, pick_loop_succ,
    if_neg (one_shiftLeft_ne_zero p), ctz_one_shiftLeft p hp, hq]
  show pick_loop s 32 (1 <<< p - 1 <<< p) = none
  rw [Nat.sub_self, show (32 : Nat) = 31 + 1 from rfl, pick_loop_succ, if_pos rfl]

theorem wake_step_id (s : scheduler_t) (i : Nat)
    (h : (s.task_pool i).state ≠ TASK_SLEEPING) : wake_step s i = s := by
  simp only [wake_step]
  rw [if_neg]
  rintro ⟨h1, -⟩
  exact h h1

theorem foldl_wake_id (l : List Nat) (s : scheduler_t)
    (h : ∀ i ∈ l, (s.task_pool i).state ≠ TASK_SLEEPING) : l.foldl wake_step s = s := by
  induction l with
  | nil => rfl
  | cons a l ih =>
    rw [List.foldl_cons, wake_step_id s a (h a (List.mem_cons_self a l))]
    exact ih fun i hi => h i (List.mem_cons_of_mem a hi)

theorem timer_wake_phase_id (s : scheduler_t)
    (h : ∀ i < s.task_count, (s.task_pool i).state ≠ TASK_SLEEPING) :
    timer_wake_phase s = s :=
  foldl_wake_id _ s fun i hi => h i (List.mem_range.mp hi)

theorem rot_zero (N : Nat) : rot N 0 = List.range N := by
  unfold rot
  rw [List.map_congr_left (g := id) ?_, List.map_id]
  intro a ha
  simp only [Nat.zero_add, id_eq]
  exact Nat.mod_eq_of_lt (List.mem_range.mp ha)

theorem rot_cons (M j : Nat) :
    rot (M + 1) j = (j % (M + 1)) ::
      (List.range M).map (fun i => (j + 1 + i) % (M + 1)) := by
  unfold rot
  rw [List.range_succ_eq_map, List.map_cons, List.map_map]
  have htail : List.map ((fun i => (j + i) % (M + 1)) ∘ Nat.succ) (List.range M)
      = List.map (fun i => (j + 1 + i) % (M + 1)) (List.range M) := by
    refine List.map_congr_left ?_
    intro a ha
    show (j + Nat.succ a) % (M + 1) = (j + 1 + a) % (M + 1)
    congr 1
    omega
  rw [htail]
  simp

theorem rot_succ (M j : Nat) :
    rot (M + 1) (j + 1) =
      (List.range M).map (fun i => (j + 1 + i) % (M + 1)) ++ [j % (M + 1)] := by
  unfold rot
  rw [List.range_succ, List.map_append, List.map_singleton]
  congr 1
  have : j + 1 + M = j + (M + 1) := by omega
  rw [this, Nat.add_mod_right]

theorem mod_succ_ne (N j : Nat) (hN : 2 ≤ N) : (j + 1) % N ≠ j % N := by
  have h1 : (j + 1) % N = (j % N + 1) % N := by
    conv_lhs => rw [Nat.add_mod]
    rw [Nat.mod_eq_of_lt (show 1 < N by omega)]
  have hr : j % N < N := Nat.mod_lt j (by omega)
  by_cases h2 : j % N + 1 < N
  · rw [h1, Nat.mod_eq_of_lt h2]
    omega
  · have he : j % N + 1 = N := by omega
    rw [h1, he, Nat.mod_self]
    omega

theorem range_succ_map_mod (K c m : Nat) :
    (List.range (K + 1)).map (fun i => (c + i) % m) =
      (c % m) :: (List.range K).map (fun i => (c + 1 + i) % m) := by
  rw [List.range_succ_eq_map, List.map_cons, List.map_map]
  have htail : List.map ((fun i => (c + i) % m) ∘ Nat.succ) (List.range K)
      = List.map (fun i => (c + 1 + i) % m) (List.range K) := by
    refine List.map_congr_left ?_
    intro a ha
    show (c + Nat.succ a) % m = (c + 1 + a) % m
    congr 1
    omega
  rw [htail]
  simp

theorem create_step_inv (k p : Nat) (hp : p < 32) (hk : k < 16) (s : scheduler_t)
    (I : CreateInv k p s) : CreateInv (k + 1) p (task_create s 0 0 0 p) := by
  have hpp : p % 32 = p := Nat.mod_eq_of_lt hp
  unfold task_create
  rw [I.count, if_neg (by omega)]
  refine ⟨?_, ?_, ?_, ?_, ?_, ?_, ?_⟩
  · rw [ready_enqueue_task_count]
  · rw [ready_enqueue_bitmap_eq]
    simp only [Function.update_same, hpp, I.qp, I.bmp]
    rcases Nat.eq_zero_or_pos k with hk0 | hk0
    · subst hk0; simp
    · have hne : List.range k ≠ [] := by
        simp only [ne_eq, List.range_eq_nil]
        omega
      rw [if_neg hne, if_neg (by omega : ¬k = 0)]
      simp
  · rw [ready_enqueue_current]
    exact I.cur
  · rw [ready_enqueue_ready_q]
    simp only [Function.update_same, hpp, if_pos rfl, I.qp]
    exact (List.range_succ k).symm
  · intro q hq
    rw [ready_enqueue_ready_q]
    simp only [Function.update_same, hpp]
    rw [if_neg hq]
    exact I.qo q hq
  · intro i hi
    rw [ready_enqueue_task_pool]
    by_cases he : i = k
    · subst he
      simp [Function.update_same, hpp]
    · simp only [Function.update_noteq he]
      exact I.pool_pr i (by omega)
  · intro i hi
    rw [ready_enqueue_task_pool]
    by_cases he : i = k
    · subst he
      simp [Function.update_same]
    · simp only [Function.update_noteq he]
      exact I.pool_st i (by omega)

theorem createN_inv (p : Nat) (hp : p < 32) :
    ∀ k, k ≤ 16 → CreateInv k p (createN k p) := by
  intro k
  induction k with
  | zero =>
    intro _
    exact ⟨rfl, by simp [createN, scheduler_init], rfl, by simp [createN, scheduler_init],
      fun q _ => rfl, fun i hi => by omega, fun i hi => by omega⟩
  | succ k ih =>
    intro h16
    exact create_step_inv k p hp (by omega) _ (ih (by omega))

theorem start_rotInv (N p : Nat) (h1 : 1 ≤ N) (h16 : N ≤ 16) (hp : p < 32) :
    RotInv N p 0 (scheduler_start (createN N p)) := by
  obtain ⟨M, rfl⟩ : ∃ M, N = M + 1 := ⟨N - 1, by omega⟩
  have I := createN_inv p hp (M + 1) h16
  have hq : (createN (M + 1) p).ready_q p = 0 :: (List.range M).map Nat.succ := by
    rw [I.qp, List.range_succ_eq_map]
  have hpick : pick_next_task (createN (M + 1) p) = some 0 :=
    pick_next_task_single _ p 0 _ hp (by rw [I.bmp]; simp) hq (I.pool_st 0 (by omega))
  unfold scheduler_start
  rw [hpick]
  refine ⟨I.count, by simpa using I.bmp, by simp, ?_, I.qo, ?_, ?_⟩
  · rw [rot_zero]
    exact I.qp
  · intro i hi
    by_cases he : i = 0
    · subst he
      simp only [Function.update_same]
      exact I.pool_pr 0 (by omega)
    · simp only [Function.update_noteq he]
      exact I.pool_pr i hi
  · intro i hi
    by_cases he : i = 0
    · subst he
      simp [Function.update_same, Nat.zero_mod]
    · simp only [Function.update_noteq he]
      rw [I.pool_st i hi, if_neg (show ¬i = 0 % (M + 1) by simpa using he)]

theorem rotInv_step (N p j : Nat) (hN : 2 ≤ N) (hp : p < 32) (s : scheduler_t)
    (I : RotInv N p j s) : RotInv N p (j + 1) (timer0_irq_handler s) := by
  obtain ⟨M, rfl⟩ : ∃ M, N = M + 2 := ⟨N - 2, by omega⟩
  have hcur_lt : j % (M + 2) < M + 2 := Nat.mod_lt j (by omega)
  have hnext_lt : (j + 1) % (M + 2) < M + 2 := Nat.mod_lt (j + 1) (by omega)
  have hne : (j + 1) % (M + 2) ≠ j % (M + 2) := mod_succ_ne (M + 2) j (by omega)
  have hpp : p % 32 = p := Nat.mod_eq_of_lt hp
  have hwake : timer_wake_phase s = s := by
    refine timer_wake_phase_id s ?_
    intro i hi
    rw [I.count] at hi
    rw [I.pool_st i hi]
    split <;> simp
  have hprio_curr : (s.task_pool (j % (M + 2))).priority = p := I.pool_pr _ hcur_lt
  have hrot_cons : rot (M + 2) j = (j % (M + 2)) ::
      (List.range (M + 1)).map (fun i => (j + 1 + i) % (M + 2)) := rot_cons (M + 1) j
  have htail : (List.range (M + 1)).map (fun i => (j + 1 + i) % (M + 2)) =
      ((j + 1) % (M + 2)) :: (List.range M).map (fun i => (j + 1 + 1 + i) % (M + 2)) :=
    range_succ_map_mod M (j + 1) (M + 2)
  have hq_s1 : (ready_dequeue s (j % (M + 2))).ready_q p
      = ((j + 1) % (M + 2)) :: (List.range M).map (fun i => (j + 1 + 1 + i) % (M + 2)) := by
    rw [ready_dequeue_ready_q, hprio_curr, hpp, if_pos rfl, I.qp, hrot_cons,
      List.erase_cons_head, htail]
  have hother_s1 : ∀ q, q ≠ p → (ready_dequeue s (j % (M + 2))).ready_q q = [] := by
    intro q hq
    rw [ready_dequeue_ready_q, hprio_curr, hpp, if_neg hq]
    exact I.qo q hq
  have hready_next : (s.task_pool ((j + 1) % (M + 2))).state = TASK_READY := by
    rw [I.pool_st _ hnext_lt, if_neg hne]
  have hpick : pick_next_task (ready_dequeue s (j % (M + 2))) = some ((j + 1) % (M + 2)) := by
    refine pick_next_task_single _ p _ _ hp ?_ hq_s1 ?_
    · rw [ready_dequeue_bitmap]; exact I.bmp
    · rw [ready_dequeue_task_pool]; exact hready_next
  have hcur : s.current = some (j % (M + 2)) := I.cur
  have hsome_ne : ¬(some (j % (M + 2)) = some ((j + 1) % (M + 2))) := by
    intro h
    injection h with h
    exact hne h.symm
  have hrun : ((ready_dequeue s (j % (M + 2))).task_pool (j % (M + 2))).state
      = TASK_RUNNING := by
    rw [ready_dequeue_task_pool, I.pool_st _ hcur_lt, if_pos rfl]
  have hrot_succ : rot (M + 2) (j + 1) =
      (List.range (M + 1)).map (fun i => (j + 1 + i) % (M + 2)) ++ [j % (M + 2)] :=
    rot_succ (M + 1) j
  unfold timer0_irq_handler
  rw [hwake]
  unfold swi_handler
  simp only [hcur, hpick]
  rw [if_neg hsome_ne, if_pos hrun]
  refine ⟨?_, ?_, ?_, ?_, ?_, ?_, ?_⟩
  · simp only [ready_enqueue_task_count, ready_dequeue_task_count]
    exact I.count
  · rw [ready_enqueue_bitmap_eq]
    simp only [Function.update_same, ready_dequeue_task_pool, hprio_curr, hpp, hq_s1]
    rw [if_neg (List.cons_ne_nil _ _)]
    simp only [ready_dequeue_bitmap]
    exact I.bmp
  · rfl
  · rw [ready_enqueue_ready_q]
    simp only [Function.update_same, ready_dequeue_task_pool, hprio_curr, hpp,
      if_pos rfl, hq_s1]
    rw [hrot_succ, htail]
    simp
  · intro q hq
    rw [ready_enqueue_ready_q]
    simp only [Function.update_same, ready_dequeue_task_pool, hprio_curr, hpp]
    rw [if_neg hq]
    exact hother_s1 q hq
  · intro i hi
    by_cases hin : i = (j + 1) % (M + 2)
    · subst hin
      simp only [Function.update_same, ready_enqueue_task_pool,
        Function.update_noteq hne, ready_dequeue_task_pool]
      exact I.pool_pr _ hnext_lt
    · simp only [Function.update_noteq hin]
      simp only [ready_enqueue_task_pool]
      by_cases hic : i = j % (M + 2)
      · subst hic
        simp only [Function.update_same, ready_dequeue_task_pool]
        exact hprio_curr
      · simp only [Function.update_noteq hic]
        simp only [ready_dequeue_task_pool]
        exact I.pool_pr i hi
  · intro i hi
    by_cases hin : i = (j + 1) % (M + 2)
    · subst hin
      simp [Function.update_same]
    · simp only [Function.update_noteq hin]
      simp only [ready_enqueue_task_pool]
      rw [if_neg hin]
      by_cases hic : i = j % (M + 2)
      · subst hic
        simp only [Function.update_same]
      · simp only [Function.update_noteq hic]
        simp only [ready_dequeue_task_pool]
        rw [I.pool_st i hi, if_neg hic]

theorem rotInv_one_tick (p j : Nat) (hp : p < 32) (s : scheduler_t)
    (I : RotInv 1 p j s) : Rot1Inv p (timer0_irq_handler s) := by
  have hpp : p % 32 = p := Nat.mod_eq_of_lt hp
  have hj : j % 1 = 0 := Nat.mod_one j
  have hwake : timer_wake_phase s = s := by
    refine timer_wake_phase_id s ?_
    intro i hi
    rw [I.count] at hi
    rw [I.pool_st i hi]
    split <;> simp
  have hcur : s.current = some 0 := by rw [I.cur, hj]
  have hprio : (s.task_pool 0).priority = p := I.pool_pr 0 (by omega)
  have hq1 : s.ready_q p = [0] := by
    rw [I.qp]
    unfold rot
    simp [List.range_succ, Nat.mod_one]
  have hq_s1 : (ready_dequeue s 0).ready_q p = [] := by
    rw [ready_dequeue_ready_q, hprio, hpp, if_pos rfl, hq1]
    simp
  have hpick : pick_next_task (ready_dequeue s 0) = none :=
    pick_next_task_single_empty _ p hp (by rw [ready_dequeue_bitmap]; exact I.bmp) hq_s1
  unfold timer0_irq_handler
  rw [hwake]
  unfold swi_handler
  simp only [hcur, hpick]
  refine ⟨?_, ?_, ?_, hq_s1, ?_, ?_, ?_⟩
  · rw [ready_dequeue_task_count]; exact I.count
  · rw [ready_dequeue_bitmap]; exact I.bmp
  · rw [ready_dequeue_current]; exact hcur
  · intro q hq
    rw [ready_dequeue_ready_q, hprio, hpp, if_neg hq]
    exact I.qo q hq
  · rw [ready_dequeue_task_pool]; exact hprio
  · rw [ready_dequeue_task_pool, I.pool_st 0 (by omega)]
    simp [hj]

theorem rot1Inv_step (p : Nat) (hp : p < 32) (s : scheduler_t)
    (I : Rot1Inv p s) : Rot1Inv p (timer0_irq_handler s) := by
  have hpp : p % 32 = p := Nat.mod_eq_of_lt hp
  have hwake : timer_wake_phase s = s := by
    refine timer_wake_phase_id s ?_
    intro i hi
    rw [I.count] at hi
    have : i = 0 := by omega
    subst this
    rw [I.pool_st]
    simp
  have hq_s1 : (ready_dequeue s 0).ready_q p = [] := by
    rw [ready_dequeue_ready_q, I.pool_pr, hpp, if_pos rfl, I.qp]
    simp
  have hpick : pick_next_task (ready_dequeue s 0) = none :=
    pick_next_task_single_empty _ p hp (by rw [ready_dequeue_bitmap]; exact I.bmp) hq_s1
  unfold timer0_irq_handler
  rw [hwake]
  unfold swi_handler
  simp only [I.cur, hpick]
  refine ⟨?_, ?_, ?_, hq_s1, ?_, ?_, ?_⟩
  · rw [ready_dequeue_task_count]; exact I.count
  · rw [ready_dequeue_bitmap]; exact I.bmp
  · rw [ready_dequeue_current]; exact I.cur
  · intro q hq
    rw [ready_dequeue_ready_q, I.pool_pr, hpp, if_neg hq]
    exact I.qo q hq
  · rw [ready_dequeue_task_pool]; exact I.pool_pr
  · rw [ready_dequeue_task_pool]; exact I.pool_st

/-- The current task during time slice `j` after `scheduler_start` is
task `j % N`: round-robin in creation (FIFO) order. -/
theorem dispatched_run (N p : Nat) (h1 : 1 ≤ N) (h16 : N ≤ 16) (hp : p < 32) :
    ∀ j, dispatched N p j = some (j % N) := by
  intro j
  rcases Nat.lt_or_ge N 2 with hN | hN
  · have hN1 : N = 1 := by omega
    subst hN1
    unfold dispatched
    cases j with
    | zero =>
      simp only [Function.iterate_zero, id_eq]
      rw [(start_rotInv 1 p (by omega) (by omega) hp).cur]
    | succ j =>
      have haux : ∀ m, Rot1Inv p
          (timer0_irq_handler^[m + 1] (scheduler_start (createN 1 p))) := by
        intro m
        induction m with
        | zero =>
          rw [Function.iterate_one]
          exact rotInv_one_tick p 0 hp _ (start_rotInv 1 p (by omega) (by omega) hp)
        | succ m ih =>
          rw [Function.iterate_succ_apply']
          exact rot1Inv_step p hp _ ih
      rw [(haux j).cur]
      rw [Nat.mod_one]
  · have haux : ∀ m, RotInv N p m
        (timer0_irq_handler^[m] (scheduler_start (createN N p))) := by
      intro m
      induction m with
      | zero => simpa using start_rotInv N p h1 h16 hp
      | succ m ih =>
        rw [Function.iterate_succ_apply']
        exact rotInv_step N p m hN hp _ ih
    unfold dispatched
    rw [(haux j).cur]

/-- In any window of `N` consecutive slice indices there is exactly one
index landing on each residue class modulo `N`. -/
theorem window_unique (N m t : Nat) (hN : 1 ≤ N) (ht : t < N) :
    ∃! i, i < N ∧ (m + i) % N = t := by
  have hr : m % N < N := Nat.mod_lt m (by omega)
  have hdm : N * (m / N) + m % N = m := Nat.div_add_mod m N
  have hmul : N * (m / N + 1) = N * (m / N) + N := by ring
  have hex : ∀ i, i < N → (m + i) % N = t →
      ∀ j, j < N → (m + j) % N = t → j = i := by
    intro i hi hieq j hj hjeq
    have hmeq : (m + j) % N = (m + i) % N := by rw [hieq, hjeq]
    have hcancel : j % N = i % N := Nat.ModEq.add_left_cancel' m hmeq
    rw [Nat.mod_eq_of_lt hj, Nat.mod_eq_of_lt hi] at hcancel
    exact hcancel
  by_cases hc : t ≥ m % N
  · have he : m + (t - m % N) = N * (m / N) + t := by omega
    have hval : (m + (t - m % N)) % N = t := by
      rw [he, Nat.mul_add_mod, Nat.mod_eq_of_lt ht]
    refine ⟨t - m % N, ⟨by omega, hval⟩, ?_⟩
    rintro j ⟨hjlt, hjeq⟩
    exact hex (t - m % N) (by omega) hval j hjlt hjeq
  · have he : m + (t + N - m % N) = N * (m / N + 1) + t := by omega
    have hval : (m + (t + N - m % N)) % N = t := by
      rw [he, Nat.mul_add_mod, Nat.mod_eq_of_lt ht]
    refine ⟨t + N - m % N, ⟨by omega, hval⟩, ?_⟩
    rintro j ⟨hjlt, hjeq⟩
    exact hex (t + N - m % N) (by omega) hval j hjlt hjeq

/-- C7: with `N` tasks created at the same priority `p` and no sleepers,
the dispatch order from `scheduler_start` is round-robin in FIFO creation
order: the task running during slice `j` is task `j % N`, so over any `N`
consecutive slices each task runs exactly once; in particular, for two
priority-0 tasks T1 (index 0) and T2 (index 1) the dispatch sequence over
the four slices after `scheduler_start` is T1, T2, T1, T2. -/
theorem c7_round_robin_fifo (N p : Nat) (h1 : 1 ≤ N) (h16 : N ≤ 16) (hp : p < 32) :
    (∀ j, dispatched N p j = some (j % N)) ∧
    (∀ m t, t < N → ∃! i, i < N ∧ dispatched N p (m + i) = some t) ∧
    (dispatched 2 0 0 = some 0 ∧ dispatched 2 0 1 = some 1 ∧
      dispatched 2 0 2 = some 0 ∧ dispatched 2 0 3 = some 1) := by
  refine ⟨dispatched_run N p h1 h16 hp, ?_, by decide, by decide, by decide, by decide⟩
  intro m t ht
  obtain ⟨i0, ⟨hlt, heq⟩, huniq⟩ := window_unique N m t h1 ht
  refine ⟨i0, ⟨hlt, ?_⟩, ?_⟩
  · rw [dispatched_run N p h1 h16 hp (m + i0), heq]
  · rintro j ⟨hjlt, hjeq⟩
    refine huniq j ⟨hjlt, ?_⟩
    rw [dispatched_run N p h1 h16 hp (m + j)] at hjeq
    injection hjeq

/-- Witness for C7 at `N = 2`, `p = 0`, slice 5. -/
theorem c7_round_robin_fifo_witness : dispatched 2 0 5 = some (5 % 2) :=
  (c7_round_robin_fifo 2 0 (by decide) (by decide) (by decide)).1 5

end TinyOS
